import Mathlib

/-!
Verification development for the Semantic-Bookmarks browser extension
(background.js, offscreen.js).  The JavaScript source is shallowly embedded:
JS strings are `String` / `List Char`, JS numbers are `ℚ` (exact arithmetic;
`Math.sqrt` is passed in as an explicit interpretation parameter `msqrt`,
instantiated on concrete inputs with `ratSqrt`, which agrees with `Math.sqrt`
on the perfect squares arising in the fixtures), fallible operations return
`Option` / `Except`, and external collaborators (the Voy WASM index, the
Ollama embedding provider, the content scraper, the bookmark tree) are
explicit oracle parameters.
-/

/-! ### JavaScript string primitives -/

/-- `String.prototype.startsWith` on character lists. -/
def jsStartsWithL : List Char → List Char → Bool
  | _, [] => true
  | [], _ :: _ => false
  | c :: cs, p :: ps => c = p && jsStartsWithL cs ps

/-- `String.prototype.includes`: `jsIncludes s pat` is true iff `pat` occurs
as a contiguous substring of `s`. -/
def jsIncludes : List Char → List Char → Bool
  | [], pat => jsStartsWithL [] pat
  | c :: cs, pat => jsStartsWithL (c :: cs) pat || jsIncludes cs pat

/-- The characters `String.prototype.trim` and the word-splitting in this
development treat as whitespace (the ASCII part of the JS definition). -/
def jsIsSpace (c : Char) : Bool :=
  c = ' ' || c = '\t' || c = '\n' || c = '\r' || c = '\x0b' || c = '\x0c'

/-- Leading-whitespace removal, as in `String.prototype.trimStart`. -/
def jsTrimLeft (cs : List Char) : List Char := cs.dropWhile jsIsSpace

/-- Trailing-whitespace removal, as in `String.prototype.trimEnd`. -/
def jsTrimRight (cs : List Char) : List Char :=
  (cs.reverse.dropWhile jsIsSpace).reverse

/-- `String.prototype.trim`: strip whitespace from both ends. -/
def jsTrim (cs : List Char) : List Char := jsTrimRight (jsTrimLeft cs)

/-- `Array.prototype.slice(s, e)` for `0 ≤ s ≤ e` (the only use in the
source has `0 ≤ s` and `e = s + 30`): the elements with indices in
`[s, e)`, clamped to the array length. -/
def jsSlice (l : List α) (s e : ℕ) : List α := (l.take e).drop s

/-- `String.prototype.substring(0, n)`. -/
def jsTruncate (s : String) (n : ℕ) : String := (s.data.take n).asString

/-- Word splitter used to state the chunker's word-sequence property:
the maximal whitespace-free runs of a character list, in order.
`wordsAcc cs acc` processes `cs` with the reversed current word `acc`. -/
def wordsAcc : List Char → List Char → List (List Char)
  | [], acc => if acc = [] then [] else [acc.reverse]
  | c :: cs, acc =>
    if jsIsSpace c then
      if acc = [] then wordsAcc cs [] else acc.reverse :: wordsAcc cs []
    else wordsAcc cs (c :: acc)

/-- The word sequence of a text. -/
def words (cs : List Char) : List (List Char) := wordsAcc cs []

/-- Join a list of chunks with single spaces (the joining operation the
spec's word-sequence property talks about). -/
def joinSp : List (List Char) → List Char
  | [] => []
  | [c] => c
  | c :: cs => c ++ ' ' :: joinSp cs

/-! ### Vector primitives (background.js lines 88-98, 518-528) -/

/-- Integer square root by bounded search (equal to `Nat.sqrt`, but defined
by structural recursion so that concrete values reduce in the kernel). -/
def natSqrtA (n : ℕ) : ℕ :=
  (List.range (n + 1)).countP (fun k => decide (k * k ≤ n)) - 1

/-- Exact square root of a rational that is a square of a rational;
used to instantiate the `Math.sqrt` parameter on concrete fixtures, where
it agrees with IEEE `Math.sqrt` (both are exact on small perfect squares). -/
def ratSqrt (q : ℚ) : ℚ := (natSqrtA q.num.toNat : ℚ) / (natSqrtA q.den : ℚ)

/-- `normalize(vector)` from background.js: divide each component by the
magnitude; a zero magnitude returns the vector unchanged.  `msqrt` is the
interpretation of `Math.sqrt`.  (Named `normalizeVec` because Mathlib
already declares `normalize`.) -/
def normalizeVec (msqrt : ℚ → ℚ) (v : List ℚ) : List ℚ :=
  let m := msqrt ((v.map (fun x => x * x)).sum)
  if m = 0 then v else v.map (fun x => x / m)

/-- `cosineSimilarity(vecA, vecB)` from background.js: the source loops over
`vecA.length`; the model assumes `vecB` at least as long (all embeddings in
the store share one dimension), summing over the common prefix. -/
def cosineSimilarity (msqrt : ℚ → ℚ) (vecA vecB : List ℚ) : ℚ :=
  let dot := (List.zipWith (fun a b => a * b) vecA vecB).sum
  let nA := (vecA.map (fun x => x * x)).sum
  let nB := ((vecB.take vecA.length).map (fun x => x * x)).sum
  dot / (msqrt nA * msqrt nB)

/-- background.js line 7. -/
def SIMILARITY_THRESHOLD : ℚ := 1 / 2

/-- background.js line 8. -/
def SEARCH_RESULT_LIMIT : ℕ := 30

/-! ### Search and pagination model (background.js lines 424-471, 759-783) -/

/-- A neighbor returned by `voyIndex.search`. -/
structure Neighbor where
  id : String
  title : String
  url : String
  distance : ℚ
deriving DecidableEq

/-- A record of the `embeddings` object store, in the traversal order of the
`bookmarkId_index` cursor (used by `getEmbeddingsByBookmarkIds`). -/
structure EmbeddingRecord where
  bookmarkId : String
  chunk : String
  embedding : List ℚ
deriving DecidableEq

/-- An entry of the ranked result list built by `search`. -/
structure ResultEntry where
  bookmarkId : String
  title : String
  url : String
  chunk : String
  distance : ℚ
deriving DecidableEq

/-- The Voy WASM index is external; it is modelled as an opaque query
function from a (normalized) query vector and a neighbor count to a
neighbor list. -/
def VoyIndex : Type := List ℚ → ℕ → List Neighbor

/-- JS object lookup `acc[key]` on an association-list model of the
`embeddingsMap` object. -/
def jsObjGet (acc : List (String × String)) (key : String) : Option String :=
  acc.lookup key

/-- JS object assignment `acc[key] = v` (overwrite if present, else add). -/
def jsObjSet (acc : List (String × String)) (key v : String) :
    List (String × String) :=
  if acc.any (fun p => p.fst == key) then
    acc.map (fun p => if p.fst == key then (key, v) else p)
  else acc ++ [(key, v)]

/-- The reduce of background.js lines 446-452: `if (!acc[data.bookmarkId])
acc[data.bookmarkId] = data.chunk` — note the JS truthiness test, under
which an empty-string chunk counts as absent. -/
def buildChunkMap (l : List EmbeddingRecord) : List (String × String) :=
  l.foldl
    (fun acc r =>
      if (jsObjGet acc r.bookmarkId).getD "" ≠ "" then acc
      else jsObjSet acc r.bookmarkId r.chunk)
    []

/-- `embeddingsMap[neighbor.id] || 'Context not available.'` (JS `||` on a
possibly-absent, possibly-empty string). -/
def jsOrContext (o : Option String) : String :=
  match o with
  | some c => if c ≠ "" then c else "Context not available."
  | none => "Context not available."

/-- The context text the claim about the ANN path attributes to a bookmark
id: the chunk of the first record for that id in cursor order, or the fixed
placeholder when none exists. -/
def chunkContextFor (records : List EmbeddingRecord) (id : String) : String :=
  match records.find? (fun r => r.bookmarkId == id) with
  | some r => r.chunk
  | none => "Context not available."

/-- `search(query)` from background.js lines 424-465.  The function first
resets the module-level `cachedSearchResults` to `[]`, so the model takes no
previous cache; it returns the pair (response sent to the popup, new value
of `cachedSearchResults`).  `voy?` is the current `voyIndex` (none when no
index is available), `queryEmbedding?` the outcome of `getEmbedding(query)`,
`records` the embeddings store in `bookmarkId_index` cursor order. -/
def search (voy? : Option VoyIndex) (queryEmbedding? : Option (List ℚ))
    (msqrt : ℚ → ℚ) (records : List EmbeddingRecord) :
    List ResultEntry × List ResultEntry :=
  match voy? with
  | none => ([], [])
  | some idx =>
    match queryEmbedding? with
    | none => ([], [])
    | some emb =>
      let nq := normalizeVec msqrt emb
      let neighbors := idx nq 500
      let neighborIds := neighbors.map (fun n => n.id)
      let relevant := records.filter (fun r => neighborIds.contains r.bookmarkId)
      let emap := buildChunkMap relevant
      let finalResults := neighbors.map (fun n =>
        { bookmarkId := n.id, title := n.title, url := n.url,
          chunk := jsOrContext (jsObjGet emap n.id), distance := n.distance })
      (finalResults.take SEARCH_RESULT_LIMIT, finalResults)

/-- `getMoreResults({page})` from background.js lines 467-471:
`cachedSearchResults.slice((page-1)*30, (page-1)*30 + 30)`.  Faithful for
`page ≥ 1` (a page of 0 would produce a negative JS index). -/
def getMoreResults (cache : List ResultEntry) (page : ℕ) : List ResultEntry :=
  jsSlice cache ((page - 1) * SEARCH_RESULT_LIMIT)
    ((page - 1) * SEARCH_RESULT_LIMIT + SEARCH_RESULT_LIMIT)

/-! ### Chunker (background.js lines 530-551) -/

/-- `text.lastIndexOf(' ', k)`: the largest index `≤ k` holding a space
character, if any (`none` models the JS return value `-1`).  Out-of-range
indices read as a non-space default, as JS `charAt` yields `undefined`. -/
def lastSpacePos (cs : List Char) : ℕ → Option ℕ
  | 0 => if cs.getD 0 'a' = ' ' then some 0 else none
  | k + 1 => if cs.getD (k + 1) 'a' = ' ' then some (k + 1) else lastSpacePos cs k

/-- The loop body of `chunkText`, with explicit fuel (each iteration shortens
the text by at least one character when `1 ≤ maxLen`, so `cs.length` fuel
suffices; with `maxLen = 0` the JS loop itself can fail to terminate). -/
def chunkTextAux : ℕ → List Char → ℕ → List (List Char)
  | 0, _, _ => []
  | fuel + 1, cs, maxLen =>
    if cs = [] then []
    else if cs.length ≤ maxLen then [cs]
    else
      match lastSpacePos cs maxLen with
      | some q =>
        if q = 0 then cs.take maxLen :: chunkTextAux fuel (jsTrim (cs.drop maxLen)) maxLen
        else cs.take q :: chunkTextAux fuel (jsTrim (cs.drop q)) maxLen
      | none => cs.take maxLen :: chunkTextAux fuel (jsTrim (cs.drop maxLen)) maxLen

/-- `chunkText(text, maxLength)` from background.js. -/
def chunkText (cs : List Char) (maxLen : ℕ) : List (List Char) :=
  chunkTextAux cs.length cs maxLen

/-- Companion predicate to `chunkTextAux`: true iff no iteration takes the
`splitPos <= 0` branch, i.e. no chunk boundary is a forced mid-token cut. -/
def midCutFreeAux : ℕ → List Char → ℕ → Bool
  | 0, _, _ => true
  | fuel + 1, cs, maxLen =>
    if cs = [] then true
    else if cs.length ≤ maxLen then true
    else
      match lastSpacePos cs maxLen with
      | some q => if q = 0 then false else midCutFreeAux fuel (jsTrim (cs.drop q)) maxLen
      | none => false

/-- `midCutFree cs maxLen`: the run of `chunkText cs maxLen` performs no
forced mid-token cut. -/
def midCutFree (cs : List Char) (maxLen : ℕ) : Bool :=
  midCutFreeAux cs.length cs maxLen

/-- `chunkText` on `String`s, as the sync path consumes it. -/
def chunkTextS (s : String) (maxLen : ℕ) : List String :=
  (chunkText s.data maxLen).map List.asString

/-! ### Quality gate (background.js lines 227-260, offscreen.js lines 11-93) -/

/-- The message shape `scrape` resolves with: a text, or an error string
(exactly one is set by every return in offscreen.js). -/
structure ScrapeResult where
  text? : Option String
  error? : Option String
deriving DecidableEq

/-- offscreen.js line 20: the scrape outcome for a non-ok HTTP response
(any status, 404 included): `{error: `Failed to fetch ${url}: ${response.statusText}`}`. -/
def scrapeHttpErr (url statusText : String) : ScrapeResult :=
  { text? := none, error? := some ("Failed to fetch " ++ url ++ ": " ++ statusText) }

/-- offscreen.js line 91: the scrape outcome when `fetch` throws (DNS
failure, connection refused, TLS failure, …):
`{error: `Failed to scrape ${url}: ${error.message}`}`. -/
def scrapeNetErr (url msg : String) : ScrapeResult :=
  { text? := none, error? := some ("Failed to scrape " ++ url ++ ": " ++ msg) }

/-- `isDeadLink(scrapeResult)` from background.js lines 253-260. -/
def isDeadLink (scrapeResult : Option ScrapeResult) : Bool :=
  match scrapeResult with
  | none => false
  | some r =>
    match r.error? with
    | none => false
    | some e =>
      jsStartsWithL e.data "[FETCH_FAILED:4".data
        || jsStartsWithL e.data "[NETWORK_ERROR]".data

/-- ASCII alphanumeric test, the `[a-zA-Z0-9]` class of the quality check. -/
def isAlnumAscii (c : Char) : Bool :=
  ('a' ≤ c && c ≤ 'z') || ('A' ≤ c && c ≤ 'Z') || ('0' ≤ c && c ≤ '9')

/-- `isScrapeSuccessful(text)` from background.js lines 227-251, with the
anti-pattern list (loaded from `scrape_clean.txt`) as a parameter.  The
share test `alphanumeric.length / text.length < 0.5` is expressed
integrally as `2 * alnum < length` (equivalent over exact arithmetic for
the positive lengths reaching it), and lower-casing is the ASCII
`Char.toLower`. -/
def isScrapeOk (antiPatterns : List String) (text? : Option String) : Bool :=
  match text? with
  | none => false
  | some t =>
    if t.data.length < 100 then false
    else
      let alnum := t.data.countP isAlnumAscii
      if alnum = 0 then false
      else if 2 * alnum < t.data.length then false
      else
        !(antiPatterns.any (fun p =>
          jsIncludes (t.data.map Char.toLower) p.data))

/-! ### Embedding client (background.js lines 476-516) -/

/-- A response of the Ollama embeddings endpoint as `getEmbedding` observes
it: a successful JSON body carrying a vector, a non-ok HTTP response with an
error body, or a thrown network error. -/
inductive ProviderResp where
  | ok (embedding : List ℚ)
  | httpErr (body : String)
  | netThrow (msg : String)
deriving DecidableEq

/-- The documented input-too-long pattern `getEmbedding` matches with
`errorText.includes(...)` (background.js line 487). -/
def lengthErrSnippet : String := "the input length exceeds the context length"

/-- Whether a provider response triggers the truncation retry. -/
def isLengthErr : ProviderResp → Bool
  | .httpErr body => jsIncludes body.data lengthErrSnippet.data
  | _ => false

/-- The embedding a provider response yields (errors yield nothing). -/
def respOk : ProviderResp → Option (List ℚ)
  | .ok v => some v
  | _ => none

/-- `getEmbedding(text)` from background.js lines 476-516, with the provider
as an oracle indexed by call number.  Returns the value handed to the caller
(`null` is `none`; every thrown error is caught by the surrounding
`try`/`catch`, so the function is total) and the list of prompts sent. -/
def getEmbeddingRun (provider : ℕ → ProviderResp) (text : String) :
    Option (List ℚ) × List String :=
  match provider 0 with
  | .ok v => (some v, [text])
  | .netThrow _ => (none, [text])
  | .httpErr body =>
    if jsIncludes body.data lengthErrSnippet.data then
      match provider 1 with
      | .ok v => (some v, [text, jsTruncate text 800])
      | .httpErr _ => (none, [text, jsTruncate text 800])
      | .netThrow _ => (none, [text, jsTruncate text 800])
    else (none, [text])

/-! ### Corpus diff and sync (background.js lines 262-417, 599-622) -/

/-- A bookmark as `getBookmarks` yields it. -/
structure Bm where
  id : String
  title : String
  url : String
deriving DecidableEq

/-- The fate of one bookmark processed in the indexing phase. -/
inductive BmOutcome where
  | dead
  | stored
  | skipped
deriving DecidableEq

/-- The title-fallback branch of the indexing loop (background.js lines
355-363): embed `chunkText(bookmark.title)[0]` if it exists; a record is
stored only when the embedding succeeds. -/
def titleFallback (embedOk : String → Bool) (b : Bm) : BmOutcome :=
  match (chunkTextS b.title 1400).head? with
  | none => .skipped
  | some tc => if embedOk tc then .stored else .skipped

/-- The per-bookmark body of the indexing loop (background.js lines
329-365): dead-link check, then the successful-scrape branch (a record is
stored iff at least one chunk of `title + "\n\n" + text` embeds), else the
title fallback.  `embedOk s` says whether `getEmbedding(s)` succeeds. -/
def processBookmark (antiPatterns : List String) (embedOk : String → Bool)
    (scrape : String → ScrapeResult) (b : Bm) : BmOutcome :=
  let r := scrape b.url
  if isDeadLink (some r) then .dead
  else
    match r.error?, r.text? with
    | none, some t =>
      if isScrapeOk antiPatterns (some t) then
        if (chunkTextS (b.title ++ "\n\n" ++ t) 1400).any embedOk then .stored
        else .skipped
      else titleFallback embedOk b
    | _, _ => titleFallback embedOk b

/-- The removal side of the diff (background.js line 288): stored ids not
reachable from the selected folders. -/
def computeToRemove (dbIds selectedIds : List String) : List String :=
  dbIds.filter (fun i => !(selectedIds.contains i))

/-- The addition side of the diff (background.js lines 319-321): selected
bookmarks neither already stored nor on the dead-link list. -/
def computeToAdd (selected : List Bm) (dbIds deadIds : List String) : List Bm :=
  selected.filter (fun b => !(dbIds.contains b.id) && !(deadIds.contains b.id))

/-- The persisted state `syncBookmarks` reads and writes: the ids of the
bookmarks store and the `deadLinkIds` list. -/
structure SyncSt where
  dbIds : List String
  deadIds : List String
deriving DecidableEq

/-- One run of `syncBookmarks(selectedFolderIds)` restricted to its effect
on the persisted state: removal phase (ids not in the selection are
deleted), then the indexing phase over `computeToAdd` (computed, as in the
source, from the pre-removal store ids), which adds dead links to the
dead-link list and stores a record per bookmark with a stored chunk. -/
def syncStep (antiPatterns : List String) (embedOk : String → Bool)
    (scrape : String → ScrapeResult) (selected : List Bm) (st : SyncSt) : SyncSt :=
  let selIds := selected.map Bm.id
  let toAdd := computeToAdd selected st.dbIds st.deadIds
  let kept := st.dbIds.filter (fun i => selIds.contains i)
  let newDead :=
    (toAdd.filter (fun b => processBookmark antiPatterns embedOk scrape b = .dead)).map Bm.id
  let newStored :=
    (toAdd.filter (fun b => processBookmark antiPatterns embedOk scrape b = .stored)).map Bm.id
  { dbIds := kept ++ newStored, deadIds := st.deadIds ++ newDead }

/-! ### Snapshot lifecycle trace (background.js lines 290-315, 369-410, 561-596) -/

/-- The observable store/index events of one `syncBookmarks` run, in program
order. -/
inductive SyncEv where
  | voyRemove
  | snapDelete
  | dbDelete
  | embedStorePut
  | voyAdd
  | foldersSet
  | snapWrite
deriving DecidableEq

/-- The event order of one `syncBookmarks` run.  `hasRemovals` is
`idsToRemove.length > 0`, `hasRemovedEmbeds` is `resourcesToRemove.length > 0`,
`hasAdds` is `bookmarksToAdd.length > 0`, `hasNewEmbeds` is
`embeddingsToStore.length > 0`, `serializeOk` is whether
`voyIndex.serialize()` returns a truthy value.  Removal phase:
`voyIndex.remove` (line 309) precedes `removeBookmarks` (line 313), whose
transaction deletes the `'main'` snapshot key (line 577) and then the
records.  Indexing phase: store the new embedding records (lines 370-375),
delete the snapshot key (lines 380-383), `voyIndex.add_batch` (line 394).
Finally the folder list is persisted (line 400) and, only if serialization
succeeded (`if (serializedData)`, lines 404-410), the fresh snapshot is
written; a failed serialization is logged and nothing is written. -/
def syncTrace (hasRemovals hasRemovedEmbeds hasAdds hasNewEmbeds serializeOk : Bool) :
    List SyncEv :=
  (if hasRemovals then
    (if hasRemovedEmbeds then [SyncEv.voyRemove] else []) ++ [SyncEv.snapDelete, SyncEv.dbDelete]
   else [])
  ++ (if hasAdds then
    (if hasNewEmbeds then [SyncEv.embedStorePut] else []) ++ [SyncEv.snapDelete]
      ++ (if hasNewEmbeds then [SyncEv.voyAdd] else [])
   else [])
  ++ [SyncEv.foldersSet]
  ++ (if serializeOk then [SyncEv.snapWrite] else [])

/-- `checkPreceded e pre seen tr`: every occurrence of `e` in `tr` is
strictly preceded by an occurrence of `pre` (`seen` records whether `pre`
already occurred). -/
def checkPreceded (e pre : SyncEv) : Bool → List SyncEv → Bool
  | _, [] => true
  | seen, x :: xs =>
    if x = e then seen && checkPreceded e pre seen xs
    else checkPreceded e pre (seen || x = pre) xs

/-- `checkFollowed e post tr`: every occurrence of `e` in `tr` is strictly
followed by a later occurrence of `post`. -/
def checkFollowed (e post : SyncEv) : List SyncEv → Bool
  | [] => true
  | x :: xs => (if x = e then xs.contains post else true) && checkFollowed e post xs

/-! ### clearAllData (background.js lines 637-664) -/

/-- The top-level identifiers declared in background.js (constants, mutable
module state, imports and function declarations) — the scope against which
an identifier reference is resolved. -/
def backgroundGlobals : List String :=
  ["DB_NAME", "BOOKMARKS_STORE", "EMBEDDINGS_STORE", "INDEXED_FOLDERS_KEY",
   "SIMILARITY_THRESHOLD", "SEARCH_RESULT_LIMIT", "MIN_SCRAPE_LENGTH",
   "db", "SCRAPING_ANTI_PATTERNS", "cachedSearchResults", "voyIndex",
   "keepAliveInterval", "openDB", "loadAntiPatterns", "keepAlive",
   "stopKeepAlive", "normalize", "buildVoyIndex", "init", "Voy",
   "initWrapper", "initializationComplete", "isScrapeSuccessful",
   "isDeadLink", "syncBookmarks", "search", "getMoreResults", "getEmbedding",
   "cosineSimilarity", "chunkText", "storeData", "removeBookmarks",
   "getBookmarks", "createOffscreenDocument", "sendStatus", "clearAllData",
   "getStats", "getFromStore", "putInStore", "getAllFromStore",
   "getAllKeysFromStore", "getEmbeddingsByBookmarkIds"]

/-- A thrown JS error. -/
inductive JsErr where
  | referenceErr (name : String)
deriving DecidableEq

/-- The persisted state `clearAllData` is supposed to clear: the three
IndexedDB stores and the keys present in `chrome.storage.local`
(`"indexedFolders"`, `"deadLinkIds"` when set). -/
structure AppState where
  bookmarks : List String
  embeddings : List EmbeddingRecord
  voySnapshot : Option (List ℚ)
  localKeys : List String
deriving DecidableEq

/-- `clearAllData()` from background.js lines 637-664.
`indexedDB.deleteDatabase(DB_NAME)` clears the three object stores; the next
statement reads the identifier `INDEXED_folders_KEY`, which is not among
`backgroundGlobals` (the declared constant is `INDEXED_FOLDERS_KEY`), so the
reference throws and the rest of the function — storage-key removal,
re-initialization, the terminal status message — never runs; the handler's
`sendResponse(await clearAllData())` therefore never sends an
acknowledgement.  The model returns the thrown error together with the state
at the throw point. -/
def clearAllData (st : AppState) : Except JsErr Unit × AppState :=
  let st1 : AppState :=
    { st with bookmarks := [], embeddings := [], voySnapshot := none }
  if backgroundGlobals.contains "INDEXED_folders_KEY" then
    (Except.ok (), { st1 with localKeys := st1.localKeys.erase "indexedFolders" })
  else (Except.error (JsErr.referenceErr "INDEXED_folders_KEY"), st1)

/-! ### Concrete fixtures -/

/-- A unit query vector (its magnitude is 1, so it is its own
normalization). -/
def fixtureQuery : List ℚ := [1, 0, 0, 0]

/-- Stored embedding with cosine similarity 4/5 = 0.8 to `fixtureQuery`. -/
def fixtureEmb1 : List ℚ := [4, 3, 0, 0]

/-- Stored embedding with cosine similarity 3/5 = 0.6 to `fixtureQuery`. -/
def fixtureEmb2 : List ℚ := [3, 4, 0, 0]

/-- Stored embedding with cosine similarity 3/10 = 0.3 to `fixtureQuery`. -/
def fixtureEmb3 : List ℚ := [3, 9, 3, 1]

/-- Three stored chunks on three distinct bookmarks, at similarities
0.8, 0.6 and 0.3 to `fixtureQuery`. -/
def fixtureRecords : List EmbeddingRecord :=
  [{ bookmarkId := "bmA", chunk := "chunk A", embedding := fixtureEmb1 },
   { bookmarkId := "bmB", chunk := "chunk B", embedding := fixtureEmb2 },
   { bookmarkId := "bmC", chunk := "chunk C", embedding := fixtureEmb3 }]

/-- A ranked list of 45 cached results, for the pagination scenario. -/
def cache45 : List ResultEntry :=
  (List.range 45).map (fun i =>
    { bookmarkId := toString i, title := "", url := "", chunk := "c",
      distance := (i : ℚ) })

/-- An index whose query answer mentions the bookmark `bmA` twice. -/
def voyW : VoyIndex := fun _ _ =>
  [{ id := "bmA", title := "A", url := "uA", distance := 1 },
   { id := "bmB", title := "B", url := "uB", distance := 2 },
   { id := "bmA", title := "A", url := "uA", distance := 3 }]

/-- Two chunk records for `bmA` (and none for `bmB`), in cursor order. -/
def recordsW : List EmbeddingRecord :=
  [{ bookmarkId := "bmA", chunk := "first A chunk", embedding := [1] },
   { bookmarkId := "bmA", chunk := "second A chunk", embedding := [2] }]

/-- A 120-character scrape text that passes the quality gate. -/
def goodText : String := (List.replicate 120 'a').asString

/-- A scrape oracle that always succeeds with `goodText`. -/
def scrapeW : String → ScrapeResult := fun _ =>
  { text? := some goodText, error? := none }

/-- A bookmark that indexes successfully under `scrapeW`. -/
def bmW : Bm := { id := "w1", title := "Title", url := "https://e.x/w" }

/-! ### General helper lemmas -/

theorem jsSlice_eq_drop_take (l : List α) (s n : ℕ) :
    jsSlice l s (s + n) = (l.drop s).take n := by
  unfold jsSlice
  rw [List.drop_take]
  congr 1
  omega

theorem jsStartsWithL_false_of_head {c p : Char} (h : ¬ c = p)
    (cs ps : List Char) : jsStartsWithL (c :: cs) (p :: ps) = false := by
  simp [jsStartsWithL, h]

theorem ratSqrt_one : ratSqrt 1 = 1 := by
  unfold ratSqrt
  rw [show ((1 : ℚ).num.toNat) = 1 from rfl, show ((1 : ℚ).den) = 1 from rfl]
  rw [show natSqrtA 1 = 1 from by decide]
  norm_num

theorem ratSqrt_twentyfive : ratSqrt 25 = 5 := by
  unfold ratSqrt
  rw [show ((25 : ℚ).num.toNat) = 25 from rfl, show ((25 : ℚ).den) = 1 from rfl]
  rw [show natSqrtA 25 = 5 from by decide, show natSqrtA 1 = 1 from by decide]
  norm_num

theorem ratSqrt_hundred : ratSqrt 100 = 10 := by
  unfold ratSqrt
  rw [show ((100 : ℚ).num.toNat) = 100 from rfl, show ((100 : ℚ).den) = 1 from rfl]
  rw [show natSqrtA 100 = 10 from by decide, show natSqrtA 1 = 1 from by decide]
  norm_num

/-! ### Claim C1 -/

/-- Claim C1 counterexample: with no ANN index available and three stored
chunks at cosine similarities 0.8, 0.6, 0.3 to the (already normalized)
query vector — the first two above the 0.5 threshold, the third below —
`search` returns the empty list, not the two matching chunks: the
brute-force fallback the claim describes does not exist in the code
(`cosineSimilarity` and `SIMILARITY_THRESHOLD` are declared but never
called). -/
theorem search_noIndex_counterexample :
    cosineSimilarity ratSqrt fixtureQuery fixtureEmb1 = 4 / 5 ∧
    cosineSimilarity ratSqrt fixtureQuery fixtureEmb2 = 3 / 5 ∧
    cosineSimilarity ratSqrt fixtureQuery fixtureEmb3 = 3 / 10 ∧
    SIMILARITY_THRESHOLD ≤ 4 / 5 ∧
    SIMILARITY_THRESHOLD ≤ 3 / 5 ∧
    ¬ SIMILARITY_THRESHOLD ≤ 3 / 10 ∧
    normalizeVec ratSqrt fixtureQuery = fixtureQuery ∧
    search none (some fixtureQuery) ratSqrt fixtureRecords = ([], []) ∧
    ([] : List ResultEntry).length ≠ 2 := by
  refine ⟨?_, ?_, ?_, ?_, ?_, ?_, ?_, rfl, by decide⟩
  · unfold cosineSimilarity fixtureQuery fixtureEmb1
    norm_num [List.zipWith, ratSqrt_one, ratSqrt_twentyfive]
  · unfold cosineSimilarity fixtureQuery fixtureEmb2
    norm_num [List.zipWith, ratSqrt_one, ratSqrt_twentyfive]
  · unfold cosineSimilarity fixtureQuery fixtureEmb3
    norm_num [List.zipWith, ratSqrt_one, ratSqrt_hundred]
  · unfold SIMILARITY_THRESHOLD
    norm_num
  · unfold SIMILARITY_THRESHOLD
    norm_num
  · unfold SIMILARITY_THRESHOLD
    norm_num
  · unfold normalizeVec fixtureQuery
    norm_num [ratSqrt_one]

/-- Claim C1 as amended: when no ANN index is available, `search` returns
the empty list (and leaves the result cache empty); no brute-force ranking
over the stored chunk embeddings takes place. -/
theorem search_noIndex_returns_empty (msqrt : ℚ → ℚ)
    (emb? : Option (List ℚ)) (records : List EmbeddingRecord) :
    search none emb? msqrt records = ([], []) := rfl

/-! ### Claim C2 -/

/-- Claim C2, code bug: `isDeadLink` recognizes only the prefixes
`[FETCH_FAILED:4` and `[NETWORK_ERROR]`, but `scrape` reports an HTTP
failure (404 included) as `Failed to fetch <url>: <statusText>` and a
network-level failure as `Failed to scrape <url>: <message>`, so no scrape
outcome is ever classified as a dead link.  Consequently a bookmark whose
URL yields HTTP 404 takes the title-fallback branch of the sync loop: a
`BookmarkRecord` is created for it (when the title embedding succeeds) and
its id never enters the dead-link set. -/
theorem deadLink_never_detected (u s m : String) :
    isDeadLink (some (scrapeHttpErr u s)) = false ∧
    isDeadLink (some (scrapeNetErr u m)) = false ∧
    syncStep [] (fun _ => true) (fun url => scrapeHttpErr url "Not Found")
        [{ id := "b1", title := "Example", url := "https://example.com/a" }]
        { dbIds := [], deadIds := [] }
      = { dbIds := ["b1"], deadIds := [] } := by
  refine ⟨?_, ?_, by decide⟩
  · show (jsStartsWithL ("Failed to fetch " ++ u ++ ": " ++ s).data "[FETCH_FAILED:4".data
        || jsStartsWithL ("Failed to fetch " ++ u ++ ": " ++ s).data "[NETWORK_ERROR]".data)
      = false
    have h : ("Failed to fetch " ++ u ++ ": " ++ s).data
        = 'F' :: ("ailed to fetch ".data ++ u.data ++ ": ".data ++ s.data) := by
      simp [String.data_append]
    rw [h]
    rw [show "[FETCH_FAILED:4".data = '[' :: "FETCH_FAILED:4".data from rfl]
    rw [show "[NETWORK_ERROR]".data = '[' :: "NETWORK_ERROR]".data from rfl]
    rw [jsStartsWithL_false_of_head (by decide), jsStartsWithL_false_of_head (by decide)]
    rfl
  · show (jsStartsWithL ("Failed to scrape " ++ u ++ ": " ++ m).data "[FETCH_FAILED:4".data
        || jsStartsWithL ("Failed to scrape " ++ u ++ ": " ++ m).data "[NETWORK_ERROR]".data)
      = false
    have h : ("Failed to scrape " ++ u ++ ": " ++ m).data
        = 'F' :: ("ailed to scrape ".data ++ u.data ++ ": ".data ++ m.data) := by
      simp [String.data_append]
    rw [h]
    rw [show "[FETCH_FAILED:4".data = '[' :: "FETCH_FAILED:4".data from rfl]
    rw [show "[NETWORK_ERROR]".data = '[' :: "NETWORK_ERROR]".data from rfl]
    rw [jsStartsWithL_false_of_head (by decide), jsStartsWithL_false_of_head (by decide)]
    rfl

/-! ### Claim C3 -/

/-- Claim C3 counterexample: in a sync that removes entries (adds nothing,
serialization succeeding), the in-memory index mutation `voyIndex.remove`
is the first event, and the persisted snapshot key is deleted only
afterwards — the claimed delete-before-mutation order does not hold on the
removal path. -/
theorem syncTrace_remove_order_counterexample :
    syncTrace true true false false true =
      [SyncEv.voyRemove, SyncEv.snapDelete, SyncEv.dbDelete,
       SyncEv.foldersSet, SyncEv.snapWrite] ∧
    (syncTrace true true false false true).indexOf SyncEv.voyRemove = 0 ∧
    (syncTrace true true false false true).indexOf SyncEv.snapDelete = 1 := by
  decide

/-- Claim C3 as amended: on the add path the snapshot key is deleted before
`add_batch` (every `voyAdd` is preceded by a `snapDelete`); on the remove
path the in-memory removal comes first, and a `snapDelete` still follows it
(in the same transaction that deletes the records).  A fresh snapshot is
written only after all mutations: when `voyIndex.serialize()` succeeds the
write is the final event of the sync, and when serialization fails no
snapshot write occurs at all — the sync then ends with the snapshot key
deleted. -/
theorem syncTrace_snapshot_ordering :
    ∀ hasRemovals hasRemovedEmbeds hasAdds hasNewEmbeds serializeOk : Bool,
      checkPreceded SyncEv.voyAdd SyncEv.snapDelete false
          (syncTrace hasRemovals hasRemovedEmbeds hasAdds hasNewEmbeds
            serializeOk) = true ∧
      checkFollowed SyncEv.voyRemove SyncEv.snapDelete
          (syncTrace hasRemovals hasRemovedEmbeds hasAdds hasNewEmbeds
            serializeOk) = true ∧
      (syncTrace hasRemovals hasRemovedEmbeds hasAdds hasNewEmbeds
        true).getLast? = some SyncEv.snapWrite ∧
      (syncTrace hasRemovals hasRemovedEmbeds hasAdds hasNewEmbeds
        false).contains SyncEv.snapWrite = false := by
  decide

/-! ### Claim C5 -/

/-- Claim C5, code bug: `clearAllData` deletes the IndexedDB database (the
bookmark, embedding and snapshot stores), but then dereferences the
undeclared identifier `INDEX­ED_folders_KEY` — the declared constant is
`INDEXED_FOLDERS_KEY` — so it throws a `ReferenceError`: the
`chrome.storage.local` keys (the indexed-folder list and, in any case never
addressed by this function, the dead-link list) survive, the stores are not
re-initialized, and no acknowledgement is returned. -/
theorem clearAllData_reference_error (st : AppState) :
    clearAllData st =
      (Except.error (JsErr.referenceErr "INDEXED_folders_KEY"),
       { st with bookmarks := [], embeddings := [], voySnapshot := none }) ∧
    (clearAllData st).snd.localKeys = st.localKeys := by
  have h : "INDEXED_folders_KEY" ∉ backgroundGlobals := by decide
  refine ⟨?_, ?_⟩ <;> simp [clearAllData, h]

/-! ### Claim C6 -/

/-- Claim C6: `getEmbedding` always queries the provider once with the full
text; it performs the truncation retry — one further call, with the text
cut to its first 800 characters — exactly when the first response is a
non-ok one whose body contains the documented input-too-long pattern; the
caller receives the embedding of the last call made if that call succeeded
and `null` otherwise (every other failure, including a thrown network
error and a failed retry, is caught), so no exception propagates. -/
theorem getEmbedding_retry_policy (provider : ℕ → ProviderResp) (text : String) :
    (getEmbeddingRun provider text).snd
      = (if isLengthErr (provider 0) = true then [text, jsTruncate text 800]
         else [text]) ∧
    (getEmbeddingRun provider text).fst
      = (if isLengthErr (provider 0) = true then respOk (provider 1)
         else respOk (provider 0)) := by
  cases h0 : provider 0 with
  | ok v => simp [getEmbeddingRun, isLengthErr, respOk, h0]
  | netThrow msg => simp [getEmbeddingRun, isLengthErr, respOk, h0]
  | httpErr body =>
    by_cases hinc : jsIncludes body.data lengthErrSnippet.data = true
    · cases h1 : provider 1 <;>
        simp [getEmbeddingRun, isLengthErr, respOk, h0, h1, hinc]
    · simp [getEmbeddingRun, isLengthErr, respOk, h0,
        Bool.of_not_eq_true hinc]

/-! ### Claim C8 -/

/-- Claim C8: with page size 30, `getMoreResults` returns exactly the slice
of the cached list from index `(p-1)*30` (inclusive) to `p*30` (exclusive),
and a page past the end of the list is the empty list, not an error. -/
theorem getMoreResults_pagination (cache : List ResultEntry) (p : ℕ)
    (_hp : 1 ≤ p) :
    getMoreResults cache p = (cache.drop ((p - 1) * 30)).take 30 ∧
    (cache.length ≤ (p - 1) * 30 → getMoreResults cache p = []) := by
  have h : getMoreResults cache p = (cache.drop ((p - 1) * 30)).take 30 := by
    unfold getMoreResults SEARCH_RESULT_LIMIT
    exact jsSlice_eq_drop_take cache ((p - 1) * 30) 30
  refine ⟨h, fun hlen => ?_⟩
  rw [h, List.drop_eq_nil_of_le hlen]
  rfl

/-- Witness for C8 on the 45-result scenario: page 1 is the slice [0,30),
page 2 the slice [30,45), page 3 empty. -/
theorem getMoreResults_pagination_witness :
    (1 ≤ 1 ∧ getMoreResults cache45 1 = (cache45.drop ((1 - 1) * 30)).take 30) ∧
    (1 ≤ 2 ∧ getMoreResults cache45 2 = (cache45.drop ((2 - 1) * 30)).take 30) ∧
    (1 ≤ 3 ∧ getMoreResults cache45 3 = []) := by
  refine ⟨⟨by decide, ?_⟩, ⟨by decide, ?_⟩, ⟨by decide, ?_⟩⟩
  · exact (getMoreResults_pagination cache45 1 (by decide)).1
  · exact (getMoreResults_pagination cache45 2 (by decide)).1
  · exact (getMoreResults_pagination cache45 3 (by decide)).2 (by decide)

/-! ### Claim C10 -/

/-- Claim C10: `search` resets the single-slot result cache to empty before
anything else, so whenever it returns empty — no index available, or the
query embedding unavailable — the previous search's pages are gone and
every subsequent `getMoreResults` call yields the empty list until a later
search repopulates the cache. -/
theorem search_resets_cache_on_failure (voy? : Option VoyIndex)
    (emb? : Option (List ℚ)) (msqrt : ℚ → ℚ) (records : List EmbeddingRecord)
    (h : voy? = none ∨ emb? = none) :
    (search voy? emb? msqrt records).snd = [] ∧
    ∀ p : ℕ, 1 ≤ p →
      getMoreResults ((search voy? emb? msqrt records).snd) p = [] := by
  have hempty : (search voy? emb? msqrt records).snd = [] := by
    rcases h with h | h
    · subst h; rfl
    · subst h; cases voy? <;> rfl
  refine ⟨hempty, fun p _hp => ?_⟩
  rw [hempty]
  simp [getMoreResults, jsSlice]

/-- Witness for C10: a concrete failing search (no index) leaves an empty
cache, and page 7 of it is empty. -/
theorem search_resets_cache_on_failure_witness :
    (search none (some [(1 : ℚ)]) ratSqrt []).snd = [] ∧
    getMoreResults ((search none (some [(1 : ℚ)]) ratSqrt []).snd) 7 = [] := by
  have h := search_resets_cache_on_failure none (some [(1 : ℚ)]) ratSqrt []
    (Or.inl rfl)
  exact ⟨h.1, h.2 7 (by decide)⟩

/-! ### Claim C9 -/

theorem lookup_cons_ite (k a b : String) (t : List (String × String)) :
    List.lookup k ((a, b) :: t) = if k == a then some b else List.lookup k t := by
  simp only [List.lookup]
  cases k == a <;> simp

theorem lookup_mem_of_eq_some {k v : String} :
    ∀ {l : List (String × String)}, List.lookup k l = some v → (k, v) ∈ l := by
  intro l
  induction l with
  | nil => intro h; exact absurd h (by simp)
  | cons p t ih =>
    obtain ⟨a, b⟩ := p
    rw [lookup_cons_ite]
    by_cases hk : (k == a) = true
    · rw [if_pos hk]
      intro h
      have hka : k = a := eq_of_beq hk
      have hbv : b = v := Option.some.inj h
      subst hka
      subst hbv
      exact List.mem_cons_self _ _
    · rw [if_neg hk]
      intro h
      exact List.mem_cons_of_mem _ (ih h)

theorem lookup_none_any_false (k : String) :
    ∀ l : List (String × String),
      List.lookup k l = none → l.any (fun p => p.fst == k) = false := by
  intro l
  induction l with
  | nil => intro _; rfl
  | cons p t ih =>
    obtain ⟨a, b⟩ := p
    rw [lookup_cons_ite]
    by_cases hk : (k == a) = true
    · rw [if_pos hk]; intro h; exact absurd h (by simp)
    · rw [if_neg hk]
      intro h
      have ha : (a == k) = false := by
        refine beq_eq_false_iff_ne.mpr ?_
        intro hEq
        exact hk (by subst hEq; exact beq_self_eq_true a)
      simp [List.any_cons, ha, ih h]

theorem jsObjGet_append (l1 l2 : List (String × String)) (k : String) :
    jsObjGet (l1 ++ l2) k = (jsObjGet l1 k).or (jsObjGet l2 k) := by
  unfold jsObjGet
  induction l1 with
  | nil => simp
  | cons p t ih =>
    obtain ⟨a, b⟩ := p
    rw [List.cons_append, lookup_cons_ite, lookup_cons_ite]
    by_cases hk : (k == a) = true
    · rw [if_pos hk, if_pos hk]; rfl
    · rw [if_neg hk, if_neg hk, ih]

theorem find?_rec_cons_pos (r : EmbeddingRecord) (t : List EmbeddingRecord)
    (k : String) (h : r.bookmarkId = k) :
    List.find? (fun x => x.bookmarkId == k) (r :: t) = some r := by
  have hp : ((fun x : EmbeddingRecord => x.bookmarkId == k) r) = true := by
    simp [h]
  exact List.find?_cons_of_pos t hp

theorem find?_rec_cons_neg (r : EmbeddingRecord) (t : List EmbeddingRecord)
    (k : String) (h : r.bookmarkId ≠ k) :
    List.find? (fun x => x.bookmarkId == k) (r :: t)
      = List.find? (fun x => x.bookmarkId == k) t := by
  have hp : ¬ ((fun x : EmbeddingRecord => x.bookmarkId == k) r) = true := by
    simp [h]
  exact List.find?_cons_of_neg t hp

theorem buildChunkMap_go (l : List EmbeddingRecord) :
    ∀ acc : List (String × String), (∀ r ∈ l, r.chunk ≠ "") →
      (∀ p ∈ acc, p.2 ≠ "") → ∀ k : String,
      jsObjGet
        (List.foldl
          (fun acc r =>
            if (jsObjGet acc r.bookmarkId).getD "" ≠ "" then acc
            else jsObjSet acc r.bookmarkId r.chunk)
          acc l) k
        = (jsObjGet acc k).or
            ((l.find? (fun r => r.bookmarkId == k)).map (fun r => r.chunk)) := by
  induction l with
  | nil => intro acc _ _ k; simp
  | cons r t ih =>
    intro acc hl hacc k
    rw [List.foldl_cons]
    by_cases hcond : (jsObjGet acc r.bookmarkId).getD "" ≠ ""
    · rw [if_pos hcond,
        ih acc (fun x hx => hl x (List.mem_cons_of_mem _ hx)) hacc k]
      obtain ⟨v, hv⟩ : ∃ v, jsObjGet acc r.bookmarkId = some v := by
        cases h : jsObjGet acc r.bookmarkId
        · rw [h] at hcond; simp at hcond
        · exact ⟨_, rfl⟩
      by_cases hk : r.bookmarkId = k
      · subst hk
        rw [hv, find?_rec_cons_pos r t r.bookmarkId rfl]
        simp
      · rw [find?_rec_cons_neg r t k hk]
    · rw [if_neg hcond]
      have hnone : jsObjGet acc r.bookmarkId = none := by
        cases h : jsObjGet acc r.bookmarkId with
        | none => rfl
        | some v =>
          exfalso
          have hvne : v ≠ "" := hacc (r.bookmarkId, v) (lookup_mem_of_eq_some h)
          exact hcond (by rw [h]; simpa using hvne)
      have hset : jsObjSet acc r.bookmarkId r.chunk = acc ++ [(r.bookmarkId, r.chunk)] := by
        unfold jsObjSet
        rw [lookup_none_any_false r.bookmarkId acc hnone]
        simp
      rw [hset,
        ih (acc ++ [(r.bookmarkId, r.chunk)])
          (fun x hx => hl x (List.mem_cons_of_mem _ hx))
          (by
            intro p hp
            rcases List.mem_append.mp hp with h | h
            · exact hacc p h
            · have : p = (r.bookmarkId, r.chunk) := by simpa using h
              rw [this]
              exact hl r (List.mem_cons_self _ _))
          k,
        jsObjGet_append]
      by_cases hk : r.bookmarkId = k
      · subst hk
        rw [find?_rec_cons_pos r t r.bookmarkId rfl]
        have h1 : jsObjGet [(r.bookmarkId, r.chunk)] r.bookmarkId = some r.chunk := by
          simp [jsObjGet, lookup_cons_ite]
        rw [h1, Option.or_assoc]
        rfl
      · have h1 : jsObjGet [(r.bookmarkId, r.chunk)] k = none := by
          simp [jsObjGet, lookup_cons_ite,
            beq_eq_false_iff_ne.mpr (fun hEq => hk hEq.symm)]
        rw [find?_rec_cons_neg r t k hk, h1, Option.or_none]

theorem buildChunkMap_lookup (l : List EmbeddingRecord)
    (hl : ∀ r ∈ l, r.chunk ≠ "") (k : String) :
    jsObjGet (buildChunkMap l) k
      = (l.find? (fun r => r.bookmarkId == k)).map (fun r => r.chunk) := by
  have h := buildChunkMap_go l [] hl (by simp) k
  unfold buildChunkMap
  rw [h]
  simp [jsObjGet]

theorem find?_filter_of_contains (records : List EmbeddingRecord)
    (ids : List String) (k : String) (hk : ids.contains k = true) :
    (records.filter (fun r => ids.contains r.bookmarkId)).find?
        (fun r => r.bookmarkId == k)
      = records.find? (fun r => r.bookmarkId == k) := by
  induction records with
  | nil => rfl
  | cons r t ih =>
    by_cases h : r.bookmarkId = k
    · subst h
      rw [@List.filter_cons_of_pos _ (fun x : EmbeddingRecord => ids.contains x.bookmarkId)
          r t hk,
        find?_rec_cons_pos r _ r.bookmarkId rfl,
        find?_rec_cons_pos r t r.bookmarkId rfl]
    · rw [find?_rec_cons_neg r t k h]
      cases hc : ids.contains r.bookmarkId
      · rw [@List.filter_cons_of_neg _ (fun x : EmbeddingRecord => ids.contains x.bookmarkId)
            r t (by simp only [hc]; exact Bool.false_ne_true), ih]
      · rw [@List.filter_cons_of_pos _ (fun x : EmbeddingRecord => ids.contains x.bookmarkId)
            r t hc, find?_rec_cons_neg r _ k h, ih]

/-- Claim C9: on the ANN path every neighbor returned by the index query is
mapped to exactly one result entry, with no deduplication by bookmark id —
the result's id sequence is the neighbor id sequence, with multiplicity —
and each entry's context text is a function of its bookmark id alone: the
chunk of the first record the secondary-index cursor yields for that id, or
the fixed string `Context not available.` when no chunk record exists.
(The hypothesis that stored chunks are non-empty reflects the sync path,
which never stores an empty chunk; an empty-string chunk would be dropped
by the JS truthiness tests in the map-building reduce.) -/
theorem search_ann_no_dedup (idx : VoyIndex) (msqrt : ℚ → ℚ) (emb : List ℚ)
    (records : List EmbeddingRecord)
    (hchunks : ∀ r ∈ records, r.chunk ≠ "") :
    (search (some idx) (some emb) msqrt records).snd
      = (idx (normalizeVec msqrt emb) 500).map (fun n =>
          { bookmarkId := n.id, title := n.title, url := n.url,
            chunk := chunkContextFor records n.id, distance := n.distance }) ∧
    ((search (some idx) (some emb) msqrt records).snd).map (fun e => e.bookmarkId)
      = (idx (normalizeVec msqrt emb) 500).map (fun n => n.id) := by
  have hmain :
      (search (some idx) (some emb) msqrt records).snd
        = (idx (normalizeVec msqrt emb) 500).map (fun n =>
            { bookmarkId := n.id, title := n.title, url := n.url,
              chunk := chunkContextFor records n.id, distance := n.distance }) := by
    show (idx (normalizeVec msqrt emb) 500).map _ = _
    refine List.map_congr_left ?_
    intro n hn
    have hidmem : n.id ∈ (idx (normalizeVec msqrt emb) 500).map (fun n => n.id) :=
      List.mem_map.mpr ⟨n, hn, rfl⟩
    have hcontains :
        ((idx (normalizeVec msqrt emb) 500).map (fun n => n.id)).contains n.id = true :=
      List.elem_eq_true_of_mem hidmem
    have hfilter : ∀ r ∈ records.filter
        (fun r => ((idx (normalizeVec msqrt emb) 500).map (fun n => n.id)).contains r.bookmarkId),
        r.chunk ≠ "" := fun r hr => hchunks r (List.mem_of_mem_filter hr)
    rw [buildChunkMap_lookup _ hfilter n.id,
      find?_filter_of_contains _ _ _ hcontains]
    unfold chunkContextFor
    cases hf : records.find? (fun r => r.bookmarkId == n.id) with
    | none => rfl
    | some r =>
      have : r.chunk ≠ "" := hchunks r (List.mem_of_find?_eq_some hf)
      simp [jsOrContext, this]
  refine ⟨hmain, ?_⟩
  rw [hmain, List.map_map]
  rfl

/-- Witness for C9: a query whose neighbor list names `bmA` twice and `bmB`
once; `bmA` appears twice, both times carrying the chunk of its first record
in cursor order, and `bmB` (no chunk record) carries the placeholder. -/
theorem search_ann_no_dedup_witness :
    (∀ r ∈ recordsW, r.chunk ≠ "") ∧
    (search (some voyW) (some [(1 : ℚ)]) ratSqrt recordsW).snd
      = [{ bookmarkId := "bmA", title := "A", url := "uA",
           chunk := "first A chunk", distance := 1 },
         { bookmarkId := "bmB", title := "B", url := "uB",
           chunk := "Context not available.", distance := 2 },
         { bookmarkId := "bmA", title := "A", url := "uA",
           chunk := "first A chunk", distance := 3 }] := by
  have h := (search_ann_no_dedup voyW ratSqrt [(1 : ℚ)] recordsW (by decide)).1
  refine ⟨by decide, ?_⟩
  rw [h]
  simp only [voyW, recordsW]
  simp [chunkContextFor, List.find?]

/-! ### Claim C7 -/

/-- Claim C7 counterexample: a selected bookmark with an empty title whose
page scrape fails (HTTP 404 — not recognized as a dead link, see C2) ends
the first sync neither stored nor dead (its title yields no chunk to embed),
so the second sync over the unchanged selection and tree computes the same
non-empty `toAdd` again: the diff is not idempotent. -/
theorem sync_second_toAdd_counterexample :
    syncStep [] (fun _ => true) (fun url => scrapeHttpErr url "Not Found")
        [{ id := "b1", title := "", url := "https://e.x/a" }]
        { dbIds := [], deadIds := [] }
      = { dbIds := [], deadIds := [] } ∧
    computeToAdd [{ id := "b1", title := "", url := "https://e.x/a" }] [] []
      = [{ id := "b1", title := "", url := "https://e.x/a" }] ∧
    ([{ id := "b1", title := "", url := "https://e.x/a" }] : List Bm) ≠ [] := by
  decide

/-- Claim C7 as amended: `toRemove` of a repeated sync is always empty, and
`toAdd` is empty provided every bookmark the first sync processed ended
settled — stored or registered dead, never skipped (an outcome that occurs
when no chunk of it could be embedded, e.g. an unavailable embedding
provider, or a failed scrape paired with an empty title). -/
theorem sync_idempotent_when_settled (antiPatterns : List String)
    (embedOk : String → Bool) (scrape : String → ScrapeResult)
    (selected : List Bm) (st : SyncSt)
    (h : ∀ b ∈ computeToAdd selected st.dbIds st.deadIds,
        processBookmark antiPatterns embedOk scrape b ≠ BmOutcome.skipped) :
    computeToRemove (syncStep antiPatterns embedOk scrape selected st).dbIds
        (selected.map Bm.id) = [] ∧
    computeToAdd selected
        (syncStep antiPatterns embedOk scrape selected st).dbIds
        (syncStep antiPatterns embedOk scrape selected st).deadIds = [] := by
  simp only [syncStep]
  constructor
  · rw [computeToRemove, List.filter_eq_nil_iff]
    intro i hi
    have hsel : (selected.map Bm.id).contains i = true := by
      rcases List.mem_append.mp hi with hk | hs
      · exact List.of_mem_filter hk
      · rcases List.mem_map.mp hs with ⟨b, hb, rfl⟩
        have hb1 : b ∈ computeToAdd selected st.dbIds st.deadIds :=
          List.mem_of_mem_filter hb
        rw [computeToAdd] at hb1
        exact List.elem_eq_true_of_mem
          (List.mem_map.mpr ⟨b, List.mem_of_mem_filter hb1, rfl⟩)
    simp only [hsel, Bool.not_true]
    exact Bool.false_ne_true
  · rw [computeToAdd, List.filter_eq_nil_iff]
    intro b hb
    cases hdb : st.dbIds.contains b.id with
    | true =>
      have hkept : b.id ∈ st.dbIds.filter
          (fun i => (selected.map Bm.id).contains i) := by
        refine List.mem_filter.mpr ⟨List.mem_of_elem_eq_true hdb, ?_⟩
        exact List.elem_eq_true_of_mem (List.mem_map.mpr ⟨b, hb, rfl⟩)
      have hc : (st.dbIds.filter (fun i => (selected.map Bm.id).contains i)
          ++ (List.map Bm.id (List.filter
            (fun b => processBookmark antiPatterns embedOk scrape b
              = BmOutcome.stored) (computeToAdd selected st.dbIds st.deadIds)))).contains
          b.id = true :=
        List.elem_eq_true_of_mem (List.mem_append.mpr (Or.inl hkept))
      simp only [hc, Bool.not_true, Bool.false_and]
      exact Bool.false_ne_true
    | false =>
      cases hdead : st.deadIds.contains b.id with
      | true =>
        have hc : (st.deadIds ++ (List.map Bm.id (List.filter
            (fun b => processBookmark antiPatterns embedOk scrape b
              = BmOutcome.dead) (computeToAdd selected st.dbIds st.deadIds)))).contains
            b.id = true :=
          List.elem_eq_true_of_mem
            (List.mem_append.mpr (Or.inl (List.mem_of_elem_eq_true hdead)))
        simp only [hc, Bool.not_true, Bool.and_false]
        exact Bool.false_ne_true
      | false =>
        have hbAdd : b ∈ computeToAdd selected st.dbIds st.deadIds := by
          rw [computeToAdd]
          refine List.mem_filter.mpr ⟨hb, ?_⟩
          simp only [hdb, hdead, Bool.not_false, Bool.and_self]
        cases hout : processBookmark antiPatterns embedOk scrape b with
        | skipped => exact absurd hout (h b hbAdd)
        | dead =>
          have hc : (st.deadIds ++ (List.map Bm.id (List.filter
              (fun b => processBookmark antiPatterns embedOk scrape b
                = BmOutcome.dead) (computeToAdd selected st.dbIds st.deadIds)))).contains
              b.id = true := by
            refine List.elem_eq_true_of_mem (List.mem_append.mpr (Or.inr ?_))
            exact List.mem_map.mpr ⟨b, List.mem_filter.mpr ⟨hbAdd, by simp [hout]⟩, rfl⟩
          simp only [hc, Bool.not_true, Bool.and_false]
          exact Bool.false_ne_true
        | stored =>
          have hc : (st.dbIds.filter (fun i => (selected.map Bm.id).contains i)
              ++ (List.map Bm.id (List.filter
                (fun b => processBookmark antiPatterns embedOk scrape b
                  = BmOutcome.stored) (computeToAdd selected st.dbIds st.deadIds)))).contains
              b.id = true := by
            refine List.elem_eq_true_of_mem (List.mem_append.mpr (Or.inr ?_))
            exact List.mem_map.mpr ⟨b, List.mem_filter.mpr ⟨hbAdd, by simp [hout]⟩, rfl⟩
          simp only [hc, Bool.not_true, Bool.false_and]
          exact Bool.false_ne_true

set_option maxRecDepth 8192 in
/-- Witness for C7: one bookmark that scrapes and embeds successfully is
stored by the first sync, and the second sync's diff is empty on both
sides. -/
theorem sync_idempotent_when_settled_witness :
    (∀ b ∈ computeToAdd [bmW] [] [],
        processBookmark [] (fun _ => true) scrapeW b ≠ BmOutcome.skipped) ∧
    computeToRemove
        (syncStep [] (fun _ => true) scrapeW [bmW]
          { dbIds := [], deadIds := [] }).dbIds ([bmW].map Bm.id) = [] ∧
    computeToAdd [bmW]
        (syncStep [] (fun _ => true) scrapeW [bmW]
          { dbIds := [], deadIds := [] }).dbIds
        (syncStep [] (fun _ => true) scrapeW [bmW]
          { dbIds := [], deadIds := [] }).deadIds = [] := by
  have h := sync_idempotent_when_settled [] (fun _ => true) scrapeW [bmW]
    { dbIds := [], deadIds := [] } (by decide)
  exact ⟨by decide, h.1, h.2⟩

/-! ### Claim C4 -/

theorem length_dropWhile_le_len (p : α → Bool) :
    ∀ l : List α, (l.dropWhile p).length ≤ l.length := by
  intro l
  induction l with
  | nil => exact Nat.le_refl 0
  | cons a t ih =>
    rw [List.dropWhile_cons]
    by_cases h : p a = true
    · rw [if_pos h]
      exact Nat.le_trans ih (Nat.le_succ _)
    · rw [if_neg h]

theorem jsTrim_length_le (cs : List Char) : (jsTrim cs).length ≤ cs.length := by
  unfold jsTrim jsTrimRight jsTrimLeft
  calc ((cs.dropWhile jsIsSpace).reverse.dropWhile jsIsSpace).reverse.length
      = ((cs.dropWhile jsIsSpace).reverse.dropWhile jsIsSpace).length := by
        rw [List.length_reverse]
    _ ≤ (cs.dropWhile jsIsSpace).reverse.length := length_dropWhile_le_len _ _
    _ = (cs.dropWhile jsIsSpace).length := by rw [List.length_reverse]
    _ ≤ cs.length := length_dropWhile_le_len _ _

theorem words_cons_space {c : Char} (hc : jsIsSpace c = true) (cs : List Char) :
    words (c :: cs) = words cs := by
  simp [words, wordsAcc, hc]

theorem wordsAcc_append_space {c : Char} (hc : jsIsSpace c = true)
    (ys : List Char) :
    ∀ (xs : List Char) (acc : List Char),
      wordsAcc (xs ++ c :: ys) acc = wordsAcc xs acc ++ wordsAcc ys [] := by
  intro xs
  induction xs with
  | nil =>
    intro acc
    by_cases h : acc = []
    · subst h
      simp [wordsAcc, hc]
    · simp only [List.nil_append, wordsAcc, hc, if_true, if_neg h]
      rw [List.cons_append, List.nil_append]
  | cons x t ih =>
    intro acc
    by_cases hx : jsIsSpace x = true
    · by_cases h : acc = []
      · subst h
        simp only [List.cons_append, wordsAcc, hx, if_true, if_pos rfl]
        exact ih []
      · simp only [List.cons_append, wordsAcc, hx, if_true, if_neg h,
          List.cons_append]
        exact congrArg (fun w => acc.reverse :: w) (ih [])
    · simp only [List.cons_append, wordsAcc, hx, Bool.false_eq_true, if_false]
      exact ih (x :: acc)

theorem words_append_space {c : Char} (hc : jsIsSpace c = true)
    (xs ys : List Char) :
    words (xs ++ c :: ys) = words xs ++ words ys :=
  wordsAcc_append_space hc ys xs []

theorem wordsAcc_allspace :
    ∀ sp : List Char, (∀ c ∈ sp, jsIsSpace c = true) →
      ∀ acc, wordsAcc sp acc = wordsAcc [] acc := by
  intro sp
  induction sp with
  | nil => intro _ _; rfl
  | cons c t ih =>
    intro hsp acc
    have hc : jsIsSpace c = true := hsp c (List.mem_cons_self _ _)
    have ht : ∀ d ∈ t, jsIsSpace d = true :=
      fun d hd => hsp d (List.mem_cons_of_mem _ hd)
    by_cases h : acc = []
    · subst h
      simp only [wordsAcc, hc, if_true, if_pos rfl]
      rw [ih ht []]
      rfl
    · simp only [wordsAcc, hc, if_true, if_neg h]
      rw [ih ht []]
      simp [wordsAcc, h]

theorem wordsAcc_append_allspace (sp : List Char)
    (hsp : ∀ c ∈ sp, jsIsSpace c = true) :
    ∀ (xs : List Char) (acc : List Char),
      wordsAcc (xs ++ sp) acc = wordsAcc xs acc := by
  intro xs
  induction xs with
  | nil => intro acc; exact wordsAcc_allspace sp hsp acc
  | cons x t ih =>
    intro acc
    by_cases hx : jsIsSpace x = true
    · by_cases h : acc = []
      · subst h
        simp only [List.cons_append, wordsAcc, hx, if_true, if_pos rfl]
        exact ih []
      · simp only [List.cons_append, wordsAcc, hx, if_true, if_neg h]
        exact congrArg (fun w => acc.reverse :: w) (ih [])
    · simp only [List.cons_append, wordsAcc, hx, Bool.false_eq_true, if_false]
      exact ih (x :: acc)

theorem words_trimLeft (cs : List Char) : words (jsTrimLeft cs) = words cs := by
  unfold jsTrimLeft
  induction cs with
  | nil => rfl
  | cons c t ih =>
    rw [List.dropWhile_cons]
    by_cases hc : jsIsSpace c = true
    · rw [if_pos hc, ih, words_cons_space hc]
    · rw [if_neg hc]

theorem words_trimRight (cs : List Char) : words (jsTrimRight cs) = words cs := by
  have hdec : cs = jsTrimRight cs ++ (cs.reverse.takeWhile jsIsSpace).reverse := by
    unfold jsTrimRight
    rw [← List.reverse_append, List.takeWhile_append_dropWhile, List.reverse_reverse]
  have hsp : ∀ c ∈ (cs.reverse.takeWhile jsIsSpace).reverse, jsIsSpace c = true :=
    fun c hc => List.mem_takeWhile_imp (List.mem_reverse.mp hc)
  conv_rhs => rw [hdec]
  exact (wordsAcc_append_allspace _ hsp (jsTrimRight cs) []).symm

theorem words_trim (cs : List Char) : words (jsTrim cs) = words cs := by
  unfold jsTrim
  rw [words_trimRight, words_trimLeft]

theorem lastSpacePos_spec (cs : List Char) :
    ∀ k q, lastSpacePos cs k = some q → q ≤ k ∧ cs.getD q 'a' = ' ' := by
  intro k
  induction k with
  | zero =>
    intro q h
    simp only [lastSpacePos] at h
    by_cases hc : cs.getD 0 'a' = ' '
    · rw [if_pos hc] at h
      cases h
      exact ⟨Nat.le_refl 0, hc⟩
    · rw [if_neg hc] at h
      exact absurd h (by simp)
  | succ k ih =>
    intro q h
    simp only [lastSpacePos] at h
    by_cases hc : cs.getD (k + 1) 'a' = ' '
    · rw [if_pos hc] at h
      cases h
      exact ⟨Nat.le_refl _, hc⟩
    · rw [if_neg hc] at h
      obtain ⟨h1, h2⟩ := ih q h
      exact ⟨Nat.le_trans h1 (Nat.le_succ k), h2⟩

theorem getD_space_lt_length {cs : List Char} {q : ℕ}
    (h : cs.getD q 'a' = ' ') : q < cs.length := by
  by_cases hq : q < cs.length
  · exact hq
  · rw [List.getD_eq_default cs 'a' (Nat.le_of_not_lt hq)] at h
    exact absurd h (by decide)

theorem drop_space_decomp {cs : List Char} {q : ℕ}
    (h : cs.getD q 'a' = ' ') : cs.drop q = ' ' :: cs.drop (q + 1) := by
  have hq : q < cs.length := getD_space_lt_length h
  rw [List.drop_eq_getElem_cons hq]
  rw [List.getD_eq_getElem cs 'a' hq] at h
  rw [h]

theorem chunkTextAux_nil (fuel L : ℕ) : chunkTextAux fuel [] L = [] := by
  cases fuel with
  | zero => rfl
  | succ n => simp [chunkTextAux]

theorem chunkTextAux_ne_nil {fuel : ℕ} {cs : List Char} {L : ℕ}
    (hcs : cs ≠ []) (hfuel : 1 ≤ fuel) : chunkTextAux fuel cs L ≠ [] := by
  cases fuel with
  | zero => exact absurd hfuel (by decide)
  | succ n =>
    by_cases hlen : cs.length ≤ L
    · simp only [chunkTextAux, if_neg hcs, if_pos hlen]
      exact List.cons_ne_nil cs []
    · cases hsp : lastSpacePos cs L with
      | none =>
        simp only [chunkTextAux, if_neg hcs, if_neg hlen, hsp]
        exact List.cons_ne_nil _ _
      | some q =>
        by_cases hq : q = 0
        · simp only [chunkTextAux, if_neg hcs, if_neg hlen, hsp, if_pos hq]
          exact List.cons_ne_nil _ _
        · simp only [chunkTextAux, if_neg hcs, if_neg hlen, hsp, if_neg hq]
          exact List.cons_ne_nil _ _

theorem chunkTextAux_length_le :
    ∀ (fuel : ℕ) (cs : List Char) (L : ℕ),
      ∀ ch ∈ chunkTextAux fuel cs L, ch.length ≤ L := by
  intro fuel
  induction fuel with
  | zero => intro cs L ch hch; exact absurd hch (by simp [chunkTextAux])
  | succ n ih =>
    intro cs L ch hch
    by_cases hnil : cs = []
    · rw [hnil, chunkTextAux_nil] at hch
      exact absurd hch (by simp)
    · by_cases hlen : cs.length ≤ L
      · simp only [chunkTextAux, if_neg hnil, if_pos hlen] at hch
        have hcs : ch = cs := by simpa using hch
        rw [hcs]
        exact hlen
      · cases hsp : lastSpacePos cs L with
        | none =>
          simp only [chunkTextAux, if_neg hnil, if_neg hlen, hsp] at hch
          rcases List.mem_cons.mp hch with hh | ht
          · rw [hh, List.length_take]
            exact Nat.min_le_left L cs.length
          · exact ih _ L ch ht
        | some q =>
          by_cases hq : q = 0
          · simp only [chunkTextAux, if_neg hnil, if_neg hlen, hsp, if_pos hq] at hch
            rcases List.mem_cons.mp hch with hh | ht
            · rw [hh, List.length_take]
              exact Nat.min_le_left L cs.length
            · exact ih _ L ch ht
          · simp only [chunkTextAux, if_neg hnil, if_neg hlen, hsp, if_neg hq] at hch
            rcases List.mem_cons.mp hch with hh | ht
            · rw [hh, List.length_take]
              exact Nat.le_trans (Nat.min_le_left q cs.length)
                (lastSpacePos_spec cs L q hsp).1
            · exact ih _ L ch ht

theorem chunkTextAux_words :
    ∀ (fuel : ℕ) (cs : List Char) (L : ℕ), 1 ≤ L → cs.length ≤ fuel →
      midCutFreeAux fuel cs L = true →
      words (joinSp (chunkTextAux fuel cs L)) = words cs := by
  intro fuel
  induction fuel with
  | zero =>
    intro cs L _ hlen _
    have hnil : cs = [] := List.eq_nil_of_length_eq_zero (Nat.le_zero.mp hlen)
    subst hnil
    rfl
  | succ n ih =>
    intro cs L hL hlen hmid
    by_cases hnil : cs = []
    · subst hnil
      rw [chunkTextAux_nil]
      rfl
    · by_cases hlenL : cs.length ≤ L
      · simp only [chunkTextAux, if_neg hnil, if_pos hlenL]
        rfl
      · cases hsp : lastSpacePos cs L with
        | none =>
          exfalso
          simp only [midCutFreeAux, if_neg hnil, if_neg hlenL, hsp] at hmid
          exact Bool.false_ne_true hmid
        | some q =>
          by_cases hq : q = 0
          · exfalso
            simp only [midCutFreeAux, if_neg hnil, if_neg hlenL, hsp,
              if_pos hq] at hmid
            exact Bool.false_ne_true hmid
          · simp only [chunkTextAux, if_neg hnil, if_neg hlenL, hsp, if_neg hq]
            simp only [midCutFreeAux, if_neg hnil, if_neg hlenL, hsp,
              if_neg hq] at hmid
            obtain ⟨hqL, hgetD⟩ := lastSpacePos_spec cs L q hsp
            have hqlt : q < cs.length := getD_space_lt_length hgetD
            have hdrop : cs.drop q = ' ' :: cs.drop (q + 1) :=
              drop_space_decomp hgetD
            have hdecomp : cs = cs.take q ++ ' ' :: cs.drop (q + 1) := by
              conv_lhs => rw [← List.take_append_drop q cs]
              rw [hdrop]
            have hrest_len : (jsTrim (cs.drop q)).length ≤ n := by
              have h1 : (cs.drop q).length = cs.length - q := List.length_drop q cs
              have h2 := jsTrim_length_le (cs.drop q)
              omega
            have hwrest : words (jsTrim (cs.drop q)) = words (cs.drop (q + 1)) := by
              rw [words_trim, hdrop, words_cons_space (by decide)]
            cases hrc : chunkTextAux n (jsTrim (cs.drop q)) L with
            | nil =>
              have hrest_nil : jsTrim (cs.drop q) = [] := by
                by_contra hne
                have hfuel1 : 1 ≤ n := by
                  have hpos := List.length_pos.mpr hne
                  omega
                exact chunkTextAux_ne_nil hne hfuel1 hrc
              show words (joinSp [cs.take q]) = words cs
              have hdropw : words (cs.drop (q + 1)) = [] := by
                rw [← hwrest, hrest_nil]
                rfl
              conv_rhs => rw [hdecomp]
              rw [words_append_space (by decide), hdropw, List.append_nil]
              rfl
            | cons c' t' =>
              show words (joinSp (cs.take q :: c' :: t')) = words cs
              have hjoin : joinSp (cs.take q :: c' :: t')
                  = cs.take q ++ ' ' :: joinSp (c' :: t') := rfl
              rw [hjoin, words_append_space (by decide)]
              have hIH := ih (jsTrim (cs.drop q)) L hL hrest_len hmid
              rw [hrc] at hIH
              rw [hIH, hwrest]
              conv_rhs => rw [hdecomp, words_append_space (by decide)]

/-- Claim C4 counterexample: with T = `" abcdef"` and L = 3 the only
whitespace within the first L characters of the text is at index 0, which
the code's `splitPos <= 0` guard treats the same as not-found: the text is
hard-cut mid-word at position 3 (and again at 6), so a chunk boundary falls
inside the word `abcdef` although whitespace exists within the first L
characters, and joining the chunks with single spaces yields the word
sequence `ab, cde, f` instead of T's word sequence `abcdef`. -/
theorem chunkText_leading_space_counterexample :
    jsIsSpace (" abcdef".data.getD 0 'a') = true ∧
    chunkText " abcdef".data 3 = [" ab".data, "cde".data, "f".data] ∧
    words (joinSp (chunkText " abcdef".data 3)) ≠ words " abcdef".data ∧
    midCutFree " abcdef".data 3 = false := by
  decide

/-- Claim C4 as amended: for L ≥ 1 every chunk of `chunkText T L` has
length ≤ L; and when no iteration takes the forced-cut branch (`lastIndexOf
(' ', L)` ≤ 0, i.e. the remaining text has no space at a positive index
≤ L), joining the chunks with single spaces reproduces T's word sequence.
A forced mid-token cut can, however, also occur when whitespace exists in
range — namely only at index 0 — and any forced cut may break the word
sequence. -/
theorem chunkText_length_and_words (cs : List Char) (L : ℕ) (hL : 1 ≤ L) :
    (∀ ch ∈ chunkText cs L, ch.length ≤ L) ∧
    (midCutFree cs L = true → words (joinSp (chunkText cs L)) = words cs) := by
  refine ⟨fun ch hch => chunkTextAux_length_le cs.length cs L ch hch,
    fun hm => ?_⟩
  exact chunkTextAux_words cs.length cs L hL (Nat.le_refl _) hm

/-- Witness for C4 at the text `"alpha beta gamma"` with L = 6: every chunk
is within the bound and the word sequence is reproduced (the run performs
no forced cut). -/
theorem chunkText_length_and_words_witness :
    1 ≤ 6 ∧
    (∀ ch ∈ chunkText "alpha beta gamma".data 6, ch.length ≤ 6) ∧
    words (joinSp (chunkText "alpha beta gamma".data 6))
      = words "alpha beta gamma".data := by
  have h := chunkText_length_and_words "alpha beta gamma".data 6 (by decide)
  exact ⟨by decide, h.1, h.2 (by decide)⟩
